import Mathlib

/-!
Verification development for the inkradio repository (python sources).

The development shallowly embeds the parts of the code that the
specification's claims are about:

* `knob.py`   — the rotary-encoder finite state machine (`FULL_TAB`,
  `RotaryEncoder.rotary_event`);
* `epd2in9.py` — the e-paper canvas: dirty-region tracking of the drawing
  primitives (`clear`, `rectangle`, `hline`, `vline`, `text`), the frame
  packer `_build`, and the bus traffic of `refresh` / `_send_frame` /
  `_display_frame`;
* `radio.py`  — the queue handling of one iteration of `Engine.run`.

Machine integers are modelled as `Int` (Python integers are unbounded);
Lean's `%` and `/` on `Int` (Euclidean) agree with Python's `%`, `>>` and
`//` for the positive divisors the code uses.  Bus traffic is
modelled as the list of `write_command` / `write_data` calls the display
code issues to its port.
-/

/-! ### Rotary encoder (knob.py) -/

/-- Full-step transition table of `knob.py` (`FULL_TAB`): rows are indexed by
the masked FSM state, columns by the 2-bit pin sample
`(pin_b <<< 1) ||| pin_a`.  Values `16` and `32` are `R_START` tagged with
`DIR_CW` resp. `DIR_CCW`. -/
def FULL_TAB : List (List Nat) :=
  [[0, 2, 4, 0],
   [3, 0, 1, 16],
   [3, 2, 0, 0],
   [3, 2, 1, 0],
   [6, 0, 4, 0],
   [6, 5, 0, 32],
   [6, 5, 4, 0]]

/-- One table lookup of `RotaryEncoder.rotary_event`:
`self.state = STATE_TAB[self.state & 0xf][pinstate]`. -/
def rotaryStep (state pinstate : Nat) : Nat :=
  (FULL_TAB.getD (state &&& 15) []).getD pinstate 0

/-- Feed one pin sample: update the state and append the reported event, if
any.  `rotary_event` reports `CLOCKWISE = 1` when the emit bits equal `32`
(`DIR_CCW`) and `ANTICLOCKWISE = 2` otherwise (code `result == 32` test). -/
def rotaryFeed (sp : Nat × List Nat) (pin : Nat) : Nat × List Nat :=
  let s := rotaryStep sp.1 pin
  let result := s &&& 48
  (s, sp.2 ++ (if result ≠ 0 then [if result == 32 then 1 else 2] else []))

/-- Run the encoder FSM from `R_START = 0` over a sample sequence, returning
the final stored state and the list of reported event codes. -/
def rotaryRun (pins : List Nat) : Nat × List Nat :=
  pins.foldl rotaryFeed (0, [])

/-! ### Display model (epd2in9.py): dirty region and frame building -/

/-- Panel width in pixels (`Epd.WIDTH`, the physical X extent). -/
def WIDTH : Int := 128

/-- Panel height in pixels (`Epd.HEIGHT`, the physical Y extent). -/
def HEIGHT : Int := 296

/-- The dirty bounding box `self._dirty = [xs, ys, xe, ye]`. -/
structure Dirty where
  xs : Int
  ys : Int
  xe : Int
  ye : Int
deriving DecidableEq, Repr

/-- The empty sentinel `[self.WIDTH, self.HEIGHT, 0, 0]` set by `__init__`
and after every transmitting refresh. -/
def dirtySentinel : Dirty := ⟨WIDTH, HEIGHT, 0, 0⟩

/-- Inverted box: what the spec describes as the empty-sentinel shape
(`xs > xe` or `ys > ye`). -/
def dirtyInverted (d : Dirty) : Prop := d.xs > d.xe ∨ d.ys > d.ye

instance (d : Dirty) : Decidable (dirtyInverted d) := by
  unfold dirtyInverted; infer_instance

/-- Alignment `x &= ~(8-1)` of `_build` (Python `&` on unbounded ints is a
floor-aligned round down). -/
def alignDown8 (x : Int) : Int := x - x % 8

/-- Alignment `(x + 7) & ~(8-1)` of `_build`. -/
def alignUp8 (x : Int) : Int := (x + 7) - (x + 7) % 8

/-- Python `range(a, b)` over `Int`. -/
def intRange (a b : Int) : List Int :=
  (List.range (b - a).toNat).map (fun i => a + Int.ofNat i)

/-- Python `range(xs, xe + 1, 8)`: the byte-column start coordinates of one
packed row. -/
def colStarts (xs xe : Int) : List Int :=
  (List.range (((xe + 1 - xs) + 7).toNat / 8)).map
    (fun k => xs + 8 * Int.ofNat k)

/-- Pack 8 consecutive pixels of row `y`, starting at `x`, into one byte:
`reduce(lambda byte, bit: byte << 1 | bit, [pixels[wix+ix, hix] & 1 ...])`.
`px` is the frame's pixel accessor; `& 1` is `% 2`. -/
def packByte (px : Int → Int → Nat) (x y : Int) : Nat :=
  ((List.range 8).map Int.ofNat).foldl
    (fun byte ix => byte * 2 + px (x + ix) y % 2) 0

/-- The nested append loop of `_build` that fills `buf`. -/
def buildBuf (px : Int → Int → Nat) (xs ys xe ye : Int) : List Nat :=
  (intRange ys (ye + 1)).foldl
    (fun buf hix =>
      (colStarts xs xe).foldl (fun b wix => b ++ [packByte px wix hix]) buf)
    []

/-- `Epd._build`: returns `none` on the explicit no-op early return
(`xe - xs <= 0 and ys - ye <= 0`), otherwise the packed buffer together with
the aligned and clamped window. -/
def build (px : Int → Int → Nat) (d : Dirty) : Option (List Nat × Dirty) :=
  if d.xe - d.xs ≤ 0 ∧ d.ys - d.ye ≤ 0 then
    none
  else
    let xs := alignDown8 d.xs
    let xe0 := alignUp8 d.xe - 1
    let xe := if xe0 ≥ WIDTH then WIDTH - 1 else xe0
    let ye := if d.ye ≥ HEIGHT then HEIGHT - 1 else d.ye
    some (buildBuf px xs d.ys xe ye, ⟨xs, d.ys, xe, ye⟩)

/-! ### Display model: bus traffic of refresh -/

/-- One port transaction: a `write_command` byte or a `write_data` block. -/
inductive BusEvent where
  | cmd (c : Nat)
  | dat (bs : List Nat)
deriving DecidableEq, Repr

/-- Low byte of a Python integer (`x & 0xFF`). -/
def byteOf (x : Int) : Nat := (x % 256).toNat

/-- Data bytes of `SET_RAM_X_ADDRESS_START_END_POSITION`
(`[(x_start >> 3) & 0xFF, (x_end >> 3) & 0xFF]`). -/
def xWindowBytes (a : Dirty) : List Nat :=
  [byteOf (a.xs / 8), byteOf (a.xe / 8)]

/-- Data bytes of `SET_RAM_Y_ADDRESS_START_END_POSITION`. -/
def yWindowBytes (a : Dirty) : List Nat :=
  [byteOf a.ys, byteOf (a.ys / 256), byteOf a.ye, byteOf (a.ye / 256)]

/-- Bus traffic of `Epd._set_memory_area`. -/
def setMemoryAreaTrace (a : Dirty) : List BusEvent :=
  [.cmd 0x44, .dat (xWindowBytes a), .cmd 0x45, .dat (yWindowBytes a)]

/-- Bus traffic of `Epd._set_memory_pointer` (the busy wait issues no bus
write). -/
def setMemoryPointerTrace (x y : Int) : List BusEvent :=
  [.cmd 0x4E, .dat [byteOf (x / 8)],
   .cmd 0x4F, .dat [byteOf y, byteOf (y / 256)]]

/-- Bus traffic of `Epd._send_frame data area`. -/
def sendFrameTrace (buf : List Nat) (a : Dirty) : List BusEvent :=
  setMemoryAreaTrace a ++ setMemoryPointerTrace a.xs a.ys ++
    [.cmd 0x24, .dat buf]

/-- Bus traffic of `Epd._display_frame`. -/
def displayFrameTrace : List BusEvent :=
  [.cmd 0x22, .dat [0xC4], .cmd 0x20, .cmd 0xFF]

/-- `Epd.refresh(full)`: the dirty region after the call together with the
bus traffic it produced.  `pmode` is the session's partial-refresh flag; the
canvas itself is never modified by `refresh`, so it is passed read-only as
`px`.  An empty packed buffer takes the `if not data` early return. -/
def refreshTrace (full pmode : Bool) (px : Int → Int → Nat) (d : Dirty) :
    Dirty × List BusEvent :=
  let d0 := if full then ⟨0, 0, WIDTH, HEIGHT⟩ else d
  match build px d0 with
  | none => (d0, [])
  | some (buf, area) =>
    if buf = [] then (d0, [])
    else
      (dirtySentinel,
       sendFrameTrace buf area ++ displayFrameTrace ++
         (if pmode then sendFrameTrace buf area else []))

/-- Extract, in order, every data block that immediately follows command
byte `c` in a trace. -/
def dataAfter (c : Nat) : List BusEvent → List (List Nat)
  | [] => []
  | BusEvent.cmd a :: BusEvent.dat bs :: rest =>
      if a = c then bs :: dataAfter c rest
      else dataAfter c (BusEvent.dat bs :: rest)
  | _ :: rest => dataAfter c rest

/-! ### Display model: drawing primitives (dirty-region effect) -/

/-- Componentwise union used by every draw to grow the dirty box. -/
def unionDirty (d b : Dirty) : Dirty :=
  ⟨min d.xs b.xs, min d.ys b.ys, max d.xe b.xe, max d.ye b.ye⟩

/-- Clamp of `Epd.rectangle` on the logical X inputs (`0 <= x <= h`,
`h = HEIGHT`). -/
def clampRectX (x : Int) : Int :=
  if x < 0 then 0 else if x > HEIGHT then HEIGHT else x

/-- Clamp of `Epd.rectangle` on the logical Y inputs (`0 <= y <= w`,
`w = WIDTH`). -/
def clampRectY (y : Int) : Int :=
  if y < 0 then 0 else if y > WIDTH then WIDTH else y

/-- Ascending reordering `if a > b: a, b = b, a`. -/
def sortPair (a b : Int) : Int × Int := if a > b then (b, a) else (a, b)

/-- Physical corner box passed to `draw.rectangle` by `Epd.rectangle`, after
clamping, swapping and orientation remapping. -/
def rectPhys (o : Bool) (x1 y1 x2 y2 : Int) : Dirty :=
  let px := sortPair (clampRectX x1) (clampRectX x2)
  let py := sortPair (clampRectY y1) (clampRectY y2)
  if o then ⟨py.1, HEIGHT - px.2, py.2, HEIGHT - px.1⟩
  else ⟨WIDTH - py.2, px.1, WIDTH - py.1, px.2⟩

/-- Physical endpoints `(xs, ys) .. (xs, ye)` that `Epd.hline` passes to
`draw.line`; `none` is the `ly < 0 or ly >= w` early return. -/
def hlinePhys (o : Bool) (lx ly len : Int) : Option (Int × Int × Int) :=
  if ly < 0 ∨ ly ≥ WIDTH then none
  else
    let ys0 := if lx < 0 then 0 else if lx > HEIGHT then HEIGHT - 1 else lx
    let xs0 := if ly < 0 then WIDTH - 1 else if ly > WIDTH then 0 else ly
    if o then
      let ye := HEIGHT - 1 - ys0
      let ys1 := ye - len
      some (xs0, if ys1 < 0 then 0 else ys1, ye)
    else
      let xs := WIDTH - 1 - xs0
      let ye0 := ys0 + len
      some (xs, ys0, if ye0 ≥ HEIGHT then HEIGHT - 1 else ye0)

/-- Dirty contribution of `Epd.hline`: the stroke extended by `width // 2`
on the left and `(width + 1) // 2` on the right of the drawn column. -/
def hlineBox (xs ys ye wid : Int) : Dirty :=
  ⟨xs - wid / 2, ys, xs + (wid + 1) / 2, ye⟩

/-- Physical endpoints `(xs, ys) .. (xe, ys)` that `Epd.vline` passes to
`draw.line`; `none` is the `lx < 0 or lx >= h` early return. -/
def vlinePhys (o : Bool) (lx ly len : Int) : Option (Int × Int × Int) :=
  if lx < 0 ∨ lx ≥ HEIGHT then none
  else
    let xs0 := if ly < 0 then 0 else if ly > WIDTH then WIDTH - 1 else ly
    let ys0 := if lx < 0 then HEIGHT - 1 else if lx > HEIGHT then 0 else lx
    if o then
      let ys := HEIGHT - 1 - ys0
      let xe0 := xs0 + len
      some (xs0, ys, if xe0 ≥ WIDTH then WIDTH - 1 else xe0)
    else
      let xe := WIDTH - 1 - xs0
      let xs1 := xe - len
      some (if xs1 < 0 then 0 else xs1, ys0, xe)

/-- Dirty contribution of `Epd.vline`: the stroke extended vertically by
`width // 2` up (clamped at 0) and `(width + 1) // 2` down (clamped at
`HEIGHT`). -/
def vlineBox (xs ys xe wid : Int) : Dirty :=
  ⟨xs, max 0 (ys - wid / 2), xe, min (ys + (wid + 1) / 2) HEIGHT⟩

/-- Dirty update of `Epd.text`.  The paste position `(x, y)` and the rotated
glyph size `(fw, fh)` are taken as arbitrary integers: the font collaborator
enters the dirty computation only through these four values. -/
def textDirty (x y fw fh : Int) (d : Dirty) : Dirty :=
  ⟨max (min d.xs x) 0, max (min d.ys y) 0,
   min (max d.xe (x + fw)) WIDTH, min (max d.ye (y + fh)) HEIGHT⟩

/-- A public drawing or refresh operation of `Epd`.  `hline`/`vline` carry
their stroke width, `text` its paste box as explained at `textDirty`. -/
inductive Op where
  | clear
  | rect (x1 y1 x2 y2 : Int)
  | hline (lx ly len wid : Int)
  | vline (lx ly len wid : Int)
  | text (x y fw fh : Int)
  | refresh (full : Bool)
deriving DecidableEq, Repr

/-- Dirty-region effect of one operation (orientation flag `o`).  `clear`
assigns the whole-canvas box `(0, 0) + self._frame.size`; the draws union
their contribution; `refresh` runs `refreshTrace` (whose dirty effect is
independent of the pixel contents, see `refreshTrace_dirty_indep`). -/
def applyOp (o : Bool) (op : Op) (d : Dirty) : Dirty :=
  match op with
  | .clear => ⟨0, 0, WIDTH, HEIGHT⟩
  | .rect x1 y1 x2 y2 => unionDirty d (rectPhys o x1 y1 x2 y2)
  | .hline lx ly len wid =>
      match hlinePhys o lx ly len with
      | none => d
      | some (xs, ys, ye) => unionDirty d (hlineBox xs ys ye wid)
  | .vline lx ly len wid =>
      match vlinePhys o lx ly len with
      | none => d
      | some (xs, ys, xe) => unionDirty d (vlineBox xs ys xe wid)
  | .text x y fw fh => textDirty x y fw fh d
  | .refresh full => (refreshTrace full false (fun _ _ => 255) d).1

/-- Run a sequence of operations on a dirty region. -/
def runOps (o : Bool) (ops : List Op) (d : Dirty) : Dirty :=
  ops.foldl (fun d op => applyOp o op d) d

/-- All four dirty components lie within `[0, WIDTH] x [0, HEIGHT]`. -/
def dirtyInRange (d : Dirty) : Prop :=
  0 ≤ d.xs ∧ d.xs ≤ WIDTH ∧ 0 ≤ d.ys ∧ d.ys ≤ HEIGHT ∧
  0 ≤ d.xe ∧ d.xe ≤ WIDTH ∧ 0 ≤ d.ye ∧ d.ye ≤ HEIGHT

instance (d : Dirty) : Decidable (dirtyInRange d) := by
  unfold dirtyInRange; infer_instance

/-- Stroke width 1 (the primitives' default) for `hline`/`vline`, trivially
true for the other operations. -/
def strokeWidth1 : Op → Prop
  | .hline _ _ _ w => w = 1
  | .vline _ _ _ w => w = 1
  | _ => True

instance (op : Op) : Decidable (strokeWidth1 op) := by
  unfold strokeWidth1; cases op <;> infer_instance

/-- An operation that draws (everything except `refresh`). -/
def isDraw : Op → Prop
  | .refresh _ => False
  | _ => True

instance (op : Op) : Decidable (isDraw op) := by
  unfold isDraw; cases op <;> infer_instance

/-- The physical bounding box a draw unions into the dirty region: `none`
for the guard-rejected strokes and for `refresh`. -/
def opBox (o : Bool) : Op → Option Dirty
  | .clear => some ⟨0, 0, WIDTH, HEIGHT⟩
  | .rect x1 y1 x2 y2 => some (rectPhys o x1 y1 x2 y2)
  | .hline lx ly len wid =>
      (hlinePhys o lx ly len).map (fun p => hlineBox p.1 p.2.1 p.2.2 wid)
  | .vline lx ly len wid =>
      (vlinePhys o lx ly len).map (fun p => vlineBox p.1 p.2.1 p.2.2 wid)
  | .text x y fw fh => some ⟨x, y, x + fw, y + fh⟩
  | .refresh _ => none

/-- Union of a nonempty list of boxes (the empty list is mapped to the
sentinel). -/
def unionList : List Dirty → Dirty
  | [] => dirtySentinel
  | b :: rest => rest.foldl unionDirty b

/-! ### Engine loop (radio.py): queue handling of one iteration -/

/-- State of `Engine.run` visible to one loop iteration: the shared event
queue, the `edit` / `clear` flags, the cursor `rpos`, the player's committed
`current` position, and the rotated deque of station positions. -/
structure EngineState where
  queue : List Nat
  edit : Bool
  clearFlag : Bool
  rpos : Nat
  current : Nat
  radios : List Nat
deriving DecidableEq, Repr

/-- Observable actions one iteration performs: committing a station to the
player (`mpc.select`), repainting the browsing row (`_show_radio`), or
repainting the 3-row editing window (`_select_radio`). -/
inductive EngOut where
  | select (p : Nat)
  | showRadio (p : Nat) (clear : Bool)
  | selectRadio (p : Nat)
deriving DecidableEq, Repr

/-- One step of Python `deque.rotate(1)`: last element moves to the front. -/
def rotateRight1 (l : List Nat) : List Nat :=
  match l.getLast? with
  | none => l
  | some a => a :: l.dropLast

/-- Python `deque.rotate(n)` for `n >= 0`. -/
def rotateRight : Nat → List Nat → List Nat
  | 0, l => l
  | n + 1, l => rotateRight n (rotateRight1 l)

/-- One step of Python `deque.rotate(-1)`: head moves to the back. -/
def rotateLeft1 (l : List Nat) : List Nat :=
  match l with
  | [] => []
  | a :: rest => rest ++ [a]

/-- Python `deque.rotate(-n)` for `n >= 0`. -/
def rotateLeft : Nat → List Nat → List Nat
  | 0, l => l
  | n + 1, l => rotateLeft n (rotateLeft1 l)

/-- One woken iteration of the `Engine.run` loop body, after
`self._evtque.popleft()` found a head event.  Event codes: `1` CLOCKWISE,
`2` ANTICLOCKWISE, `3` BUTTONDOWN, `22` MENU, `27` CANCEL.  A rotation head
coalesces the same-direction events still queued (`count = 1 +
evtque.count(code)`); every recognised code ends the iteration with
`self._evtque.clear()`, while an unrecognised code `continue`s with only the
head consumed.  `mpc.select` is modelled as committing `current := rpos`. -/
def loopBody (s : EngineState) : EngineState × List EngOut :=
  match s.queue with
  | [] => (s, [])
  | code :: rest =>
    if code = 1 then
      if s.edit then
        let count := 1 + rest.count 1
        let radios := rotateLeft count s.radios
        let rp := radios.headD 0
        ({ s with queue := [], radios := radios, rpos := rp },
         [.selectRadio rp])
      else ({ s with queue := [] }, [])
    else if code = 2 then
      if s.edit then
        let count := 1 + rest.count 2
        let radios := rotateRight count s.radios
        let rp := radios.headD 0
        ({ s with queue := [], radios := radios, rpos := rp },
         [.selectRadio rp])
      else ({ s with queue := [] }, [])
    else if code = 3 then
      if s.edit then
        if s.rpos ≠ s.current then
          ({ s with queue := rest, edit := false, current := s.rpos },
           [.select s.rpos, .showRadio s.rpos s.clearFlag])
        else
          ({ s with queue := rest, edit := false },
           [.showRadio s.rpos s.clearFlag])
      else
        let rp := s.radios.headD 0
        ({ s with queue := [], edit := true, clearFlag := true, rpos := rp },
         [.selectRadio rp])
    else if code = 22 then
      if s.edit then
        let rp := s.radios.headD 0
        ({ s with queue := [], rpos := rp }, [.selectRadio rp])
      else ({ s with queue := [] }, [])
    else if code = 27 then
      if s.edit then
        ({ s with queue := [], edit := false, clearFlag := false },
         [.showRadio s.current true])
      else ({ s with queue := [] }, [])
    else
      ({ s with queue := rest }, [])

/-! ### Remaining definitions used by the theorems -/

/-- Declarative form of the packed buffer: rows of the window in increasing
`y`, each row the bytes of its 8-pixel groups. -/
def bufSpec (px : Int → Int → Nat) (a : Dirty) : List Nat :=
  (intRange a.ys (a.ye + 1)).flatMap
    (fun hix => (colStarts a.xs a.xe).map (fun wix => packByte px wix hix))

/-- Ascending, in-bounds corner box for `rectangle` (the code clamps its
logical inputs into the closed ranges `[0, h]` and `[0, w]`). -/
def rectCornersOk (b : Dirty) : Prop :=
  0 ≤ b.xs ∧ b.xs ≤ b.xe ∧ b.xe ≤ WIDTH ∧
  0 ≤ b.ys ∧ b.ys ≤ b.ye ∧ b.ye ≤ HEIGHT

instance (b : Dirty) : Decidable (rectCornersOk b) := by
  unfold rectCornersOk; infer_instance

/-- Ascending, in-bounds endpoints `(xs, ys) .. (xs, ye)` for `hline`. -/
def hlineEndpointsOk (r : Int × Int × Int) : Prop :=
  0 ≤ r.1 ∧ r.1 ≤ WIDTH - 1 ∧ 0 ≤ r.2.1 ∧ r.2.1 ≤ r.2.2 ∧ r.2.2 ≤ HEIGHT - 1

instance (r : Int × Int × Int) : Decidable (hlineEndpointsOk r) := by
  unfold hlineEndpointsOk; infer_instance

/-- Ascending, in-bounds endpoints `(xs, ys) .. (xe, ys)` for `vline`. -/
def vlineEndpointsOk (r : Int × Int × Int) : Prop :=
  0 ≤ r.1 ∧ r.1 ≤ r.2.2 ∧ r.2.2 ≤ WIDTH - 1 ∧ 0 ≤ r.2.1 ∧ r.2.1 ≤ HEIGHT - 1

instance (r : Int × Int × Int) : Decidable (vlineEndpointsOk r) := by
  unfold vlineEndpointsOk; infer_instance

/-! ### Helper lemmas -/

/-- Appending one element per fold step is mapping. -/
lemma foldl_append_singleton (g : Int → Nat) :
    ∀ (cols : List Int) (acc : List Nat),
      cols.foldl (fun b wix => b ++ [g wix]) acc = acc ++ cols.map g := by
  intro cols
  induction cols with
  | nil => intro acc; simp
  | cons c cs ih => intro acc; simp [ih]

/-- The imperative nested loop of `_build` produces the declarative
row-major byte list. -/
lemma buildBuf_eq_flatMap (px : Int → Int → Nat) (xs ys xe ye : Int) :
    buildBuf px xs ys xe ye =
      (intRange ys (ye + 1)).flatMap
        (fun hix => (colStarts xs xe).map (fun wix => packByte px wix hix)) := by
  unfold buildBuf
  generalize intRange ys (ye + 1) = rows
  have main : ∀ (rows : List Int) (acc : List Nat),
      rows.foldl
        (fun buf hix =>
          (colStarts xs xe).foldl (fun b wix => b ++ [packByte px wix hix]) buf)
        acc =
      acc ++ rows.flatMap
        (fun hix => (colStarts xs xe).map (fun wix => packByte px wix hix)) := by
    intro rows
    induction rows with
    | nil => intro acc; simp
    | cons r rs ih =>
      intro acc
      rw [List.foldl_cons,
          foldl_append_singleton (fun wix => packByte px wix r)
            (colStarts xs xe) acc, ih]
      simp
  simpa using main rows []

/-- Unfolded form of the successful branch of `build`. -/
lemma build_some_spec {px : Int → Int → Nat} {d : Dirty} {buf : List Nat}
    {a : Dirty} (h : build px d = some (buf, a)) :
    buf = buildBuf px a.xs a.ys a.xe a.ye ∧
    a.xs = alignDown8 d.xs ∧ a.ys = d.ys ∧
    a.xe = (if alignUp8 d.xe - 1 ≥ WIDTH then WIDTH - 1 else alignUp8 d.xe - 1) ∧
    a.ye = (if d.ye ≥ HEIGHT then HEIGHT - 1 else d.ye) ∧
    ¬(d.xe - d.xs ≤ 0 ∧ d.ys - d.ye ≤ 0) := by
  unfold build at h
  split at h
  · exact absurd h (by simp)
  · simp only [Option.some.injEq, Prod.mk.injEq] at h
    obtain ⟨hbuf, harea⟩ := h
    subst harea
    simp_all

/-- `build` takes the no-op early return exactly on its own emptiness
test. -/
lemma build_eq_none_iff (px : Int → Int → Nat) (d : Dirty) :
    build px d = none ↔ (d.xe - d.xs ≤ 0 ∧ d.ys - d.ye ≤ 0) := by
  unfold build
  split <;> simp_all

/-- A buffer built over an upside-down row range is empty. -/
lemma buildBuf_nil_of_rows_empty {px : Int → Int → Nat} {xs ys xe ye : Int}
    (h : ye + 1 ≤ ys) : buildBuf px xs ys xe ye = [] := by
  rw [buildBuf_eq_flatMap]
  have : intRange ys (ye + 1) = [] := by
    unfold intRange
    have : (ye + 1 - ys).toNat = 0 := by omega
    simp [this]
  simp [this]

/-- A refresh on an inverted dirty box is silent: the explicit no-op test
catches an inverted X extent (when Y is not inverted), and an inverted Y
extent makes the packed buffer empty, hitting the `if not data` return. -/
lemma refresh_early_of_inverted {pm : Bool} {px : Int → Int → Nat}
    {d : Dirty} (h : dirtyInverted d) :
    refreshTrace false pm px d = (d, []) := by
  cases hb : build px d with
  | none => unfold refreshTrace; simp [hb]
  | some pair =>
    obtain ⟨buf, area⟩ := pair
    obtain ⟨hbuf, hxs, hys, hxe, hye, hcond⟩ := build_some_spec hb
    have hinv : d.ys > d.ye := by
      rcases h with h | h
      · exact by omega
      · exact h
    have hempty : buf = [] := by
      rw [hbuf]
      apply buildBuf_nil_of_rows_empty
      rw [hys, hxe] at *
      rw [hye]
      split <;> omega
    unfold refreshTrace
    simp [hb, hempty]

/-- The call after any refresh (without `force_full`) is silent: a
transmitting refresh resets the dirty box to the sentinel, and an early
return leaves the state unchanged so the early return repeats. -/
lemma refresh_second_call_silent (pm : Bool) (px : Int → Int → Nat)
    (d : Dirty) :
    (refreshTrace false pm px ((refreshTrace false pm px d).1)).2 = [] := by
  cases hb : build px d with
  | none =>
    have h1 : refreshTrace false pm px d = (d, []) := by
      unfold refreshTrace; simp [hb]
    rw [h1]
    unfold refreshTrace; simp [hb]
  | some pair =>
    obtain ⟨buf, area⟩ := pair
    by_cases hbuf : buf = []
    · have h1 : refreshTrace false pm px d = (d, []) := by
        unfold refreshTrace; simp [hb, hbuf]
      rw [h1]
      unfold refreshTrace; simp [hb, hbuf]
    · have h1 : (refreshTrace false pm px d).1 = dirtySentinel := by
        unfold refreshTrace; simp [hb, hbuf]
      rw [h1, refresh_early_of_inverted (by decide)]

/-! ### Claim theorems: refresh behaviour (C2, C4, C10) -/

/-- Claim C4: if the dirty region is empty (the inverted-box sentinel
shape), `refresh()` without `force_full` writes no command and no data byte
to the port and leaves the dirty region unchanged (the canvas is never
touched by `refresh`); consequently the second of two consecutive
`refresh()` calls with no intervening draw is always silent, for every
state. -/
theorem refresh_empty_is_noop (pm : Bool) (px : Int → Int → Nat) (d : Dirty) :
    (dirtyInverted d → refreshTrace false pm px d = (d, [])) ∧
    (refreshTrace false pm px ((refreshTrace false pm px d).1)).2 = [] :=
  ⟨fun h => refresh_early_of_inverted h, refresh_second_call_silent pm px d⟩

/-- Witness for C4 at the constructor sentinel `[WIDTH, HEIGHT, 0, 0]`. -/
theorem refresh_empty_is_noop_witness :
    refreshTrace false true (fun _ _ => 255) dirtySentinel =
      (dirtySentinel, []) :=
  (refresh_empty_is_noop true (fun _ _ => 255) dirtySentinel).1 (by decide)

/-- Claim C10: `_build` takes the no-op early return exactly when
`xe - xs <= 0 and ys - ye <= 0`; hence a dirty box with `xs == xe` and
`ys < ye` (a one-pixel-wide shape) makes `refresh` transmit nothing and
skip the reset, leaving the dirty region unchanged. -/
theorem build_noop_test_exact (pm : Bool) (px : Int → Int → Nat) (d : Dirty) :
    (build px d = none ↔ (d.xe - d.xs ≤ 0 ∧ d.ys - d.ye ≤ 0)) ∧
    (d.xs = d.xe → d.ys < d.ye → refreshTrace false pm px d = (d, [])) := by
  refine ⟨build_eq_none_iff px d, fun h1 h2 => ?_⟩
  have hnone : build px d = none := (build_eq_none_iff px d).2 (by omega)
  unfold refreshTrace
  simp [hnone]

/-- Witness for C10 at the dirty box `[3, 0, 3, 5]`. -/
theorem build_noop_test_exact_witness :
    refreshTrace false false (fun _ _ => 255) ⟨3, 0, 3, 5⟩ =
      (⟨3, 0, 3, 5⟩, []) :=
  (build_noop_test_exact false (fun _ _ => 255) ⟨3, 0, 3, 5⟩).2
    (by decide) (by decide)

/-- Claim C2: a non-empty flush in a partial-refresh session sends the
packed payload exactly twice — byte-identical `WRITE_RAM` payloads to the
identical address window — while a full-refresh session sends it exactly
once.  Command bytes: `0x44`/`0x45` program the X/Y window, `0x24` is
`WRITE_RAM`. -/
theorem partial_refresh_double_send (px : Int → Int → Nat) (d : Dirty)
    (buf : List Nat) (area : Dirty) (h : build px d = some (buf, area))
    (hne : buf ≠ []) :
    (refreshTrace false true px d).2 =
      sendFrameTrace buf area ++ displayFrameTrace ++ sendFrameTrace buf area ∧
    dataAfter 0x24 (refreshTrace false true px d).2 = [buf, buf] ∧
    dataAfter 0x44 (refreshTrace false true px d).2 =
      [xWindowBytes area, xWindowBytes area] ∧
    dataAfter 0x45 (refreshTrace false true px d).2 =
      [yWindowBytes area, yWindowBytes area] ∧
    (refreshTrace false false px d).2 =
      sendFrameTrace buf area ++ displayFrameTrace ∧
    dataAfter 0x24 (refreshTrace false false px d).2 = [buf] ∧
    dataAfter 0x44 (refreshTrace false false px d).2 = [xWindowBytes area] ∧
    dataAfter 0x45 (refreshTrace false false px d).2 = [yWindowBytes area] := by
  have ht : (refreshTrace false true px d).2 =
      sendFrameTrace buf area ++ displayFrameTrace ++ sendFrameTrace buf area := by
    unfold refreshTrace
    simp [h, hne]
  have hf : (refreshTrace false false px d).2 =
      sendFrameTrace buf area ++ displayFrameTrace := by
    unfold refreshTrace
    simp [h, hne]
  refine ⟨ht, ?_, ?_, ?_, hf, ?_, ?_, ?_⟩ <;>
    simp [ht, hf, sendFrameTrace, setMemoryAreaTrace, setMemoryPointerTrace,
          displayFrameTrace, dataAfter]

/-- Witness for C2: a concrete partial-mode flush of the dirty box
`[0, 0, 1, 1]` on an all-white canvas carries its two-byte payload twice. -/
theorem partial_refresh_double_send_witness :
    dataAfter 0x24 (refreshTrace false true (fun _ _ => 255) ⟨0, 0, 1, 1⟩).2 =
      [[255, 255], [255, 255]] :=
  (partial_refresh_double_send (fun _ _ => 255) ⟨0, 0, 1, 1⟩ [255, 255]
    ⟨0, 0, 7, 1⟩ (by decide) (by decide)).2.1

/-! ### Claim theorems: aligned window and packing (C5, C6) -/

/-- Claim C5 (amended): every transmitted window is byte-aligned — `xs` is
a multiple of 8 and `xe + 1` is a multiple of 8 or `xe` is the last column —
with `xe` clamped to `WIDTH - 1` and `ye` clamped to `HEIGHT - 1`, `ys`
taken verbatim and `xs` only rounded down.  The right edge is rounded up to
the byte-aligned exclusive-end convention: it is widened whenever the dirty
`xe` is not a multiple of 8, and otherwise equals `xe - 1`. -/
theorem aligned_window_spec (px : Int → Int → Nat) (d : Dirty)
    (buf : List Nat) (a : Dirty) (h : build px d = some (buf, a))
    (_hne : buf ≠ []) :
    a.xs % 8 = 0 ∧ ((a.xe + 1) % 8 = 0 ∨ a.xe = WIDTH - 1) ∧
    a.xe ≤ WIDTH - 1 ∧ a.ye = min d.ye (HEIGHT - 1) ∧ a.ys = d.ys ∧
    a.xs ≤ d.xs ∧
    (d.xe % 8 ≠ 0 → min d.xe (WIDTH - 1) ≤ a.xe) ∧
    (d.xe % 8 = 0 → a.xe = min (d.xe - 1) (WIDTH - 1)) := by
  obtain ⟨_, hxs, hys, hxe, hye, hcond⟩ := build_some_spec h
  simp only [alignDown8, alignUp8] at hxs hxe
  unfold WIDTH HEIGHT at *
  split at hxe <;> split at hye <;> omega

/-- Counterexample to C5 as stated: the dirty box `[0, 0, 8, 1]` (right
edge a multiple of 8, far from the clamp) transmits the window
`[0, 0, 7, 1]`, whose X extent is narrower than the dirty box — the extent
is not "only ever widened". -/
theorem aligned_window_narrows_at_multiple_of_8 :
    build (fun _ _ => 255) ⟨0, 0, 8, 1⟩ = some ([255, 255], ⟨0, 0, 7, 1⟩) ∧
    (7 : Int) < 8 ∧ (8 : Int) ≤ WIDTH - 1 := by
  decide

/-- Witness for C5 at the dirty box `[3, 2, 9, 4]` on an all-white canvas:
the transmitted window is `[0, 2, 15, 4]`. -/
theorem aligned_window_spec_witness :
    (0 : Int) % 8 = 0 ∧ (((15 : Int) + 1) % 8 = 0 ∨ (15 : Int) = WIDTH - 1) ∧
    (15 : Int) ≤ WIDTH - 1 ∧ (4 : Int) = min (4 : Int) (HEIGHT - 1) ∧
    (2 : Int) = (2 : Int) ∧ (0 : Int) ≤ (3 : Int) ∧
    ((9 : Int) % 8 ≠ 0 → min (9 : Int) (WIDTH - 1) ≤ (15 : Int)) ∧
    ((9 : Int) % 8 = 0 → (15 : Int) = min ((9 : Int) - 1) (WIDTH - 1)) :=
  aligned_window_spec (fun _ _ => 255) ⟨3, 2, 9, 4⟩
    [255, 255, 255, 255, 255, 255] ⟨0, 2, 15, 4⟩ (by decide) (by decide)

/-- MSB-first packing: the fold of `_build` weights the leftmost pixel of
an 8-pixel group with 128 and the rightmost with 1. -/
lemma packByte_msb (px : Int → Int → Nat) (x y : Int) :
    packByte px x y =
      128 * (px x y % 2) + 64 * (px (x + 1) y % 2) + 32 * (px (x + 2) y % 2) +
      16 * (px (x + 3) y % 2) + 8 * (px (x + 4) y % 2) +
      4 * (px (x + 5) y % 2) + 2 * (px (x + 6) y % 2) + px (x + 7) y % 2 := by
  have hr : ((List.range 8).map Int.ofNat) =
      [0, 1, 2, 3, 4, 5, 6, 7] := by rfl
  rw [packByte, hr]
  simp only [List.foldl]
  ring_nf

/-- A group of 8 odd pixel values (WHITE is `0xFF`) packs to `0xFF`. -/
lemma packByte_all_one (px : Int → Int → Nat) (x y : Int)
    (h : ∀ i : Int, 0 ≤ i → i ≤ 7 → px (x + i) y % 2 = 1) :
    packByte px x y = 255 := by
  have e0 : px x y % 2 = 1 := by simpa using h 0 (by norm_num) (by norm_num)
  have e1 : px (x + 1) y % 2 = 1 := h 1 (by norm_num) (by norm_num)
  have e2 : px (x + 2) y % 2 = 1 := h 2 (by norm_num) (by norm_num)
  have e3 : px (x + 3) y % 2 = 1 := h 3 (by norm_num) (by norm_num)
  have e4 : px (x + 4) y % 2 = 1 := h 4 (by norm_num) (by norm_num)
  have e5 : px (x + 5) y % 2 = 1 := h 5 (by norm_num) (by norm_num)
  have e6 : px (x + 6) y % 2 = 1 := h 6 (by norm_num) (by norm_num)
  have e7 : px (x + 7) y % 2 = 1 := h 7 (by norm_num) (by norm_num)
  rw [packByte_msb, e0, e1, e2, e3, e4, e5, e6, e7]

/-- A group of 8 even pixel values (BLACK is `0x00`) packs to `0x00`. -/
lemma packByte_all_zero (px : Int → Int → Nat) (x y : Int)
    (h : ∀ i : Int, 0 ≤ i → i ≤ 7 → px (x + i) y % 2 = 0) :
    packByte px x y = 0 := by
  have e0 : px x y % 2 = 0 := by simpa using h 0 (by norm_num) (by norm_num)
  have e1 : px (x + 1) y % 2 = 0 := h 1 (by norm_num) (by norm_num)
  have e2 : px (x + 2) y % 2 = 0 := h 2 (by norm_num) (by norm_num)
  have e3 : px (x + 3) y % 2 = 0 := h 3 (by norm_num) (by norm_num)
  have e4 : px (x + 4) y % 2 = 0 := h 4 (by norm_num) (by norm_num)
  have e5 : px (x + 5) y % 2 = 0 := h 5 (by norm_num) (by norm_num)
  have e6 : px (x + 6) y % 2 = 0 := h 6 (by norm_num) (by norm_num)
  have e7 : px (x + 7) y % 2 = 0 := h 7 (by norm_num) (by norm_num)
  rw [packByte_msb, e0, e1, e2, e3, e4, e5, e6, e7]

/-- Bounds of a member of `intRange`. -/
lemma mem_intRange {a b v : Int} (h : v ∈ intRange a b) : a ≤ v ∧ v < b := by
  unfold intRange at h
  obtain ⟨i, hi, hv⟩ := List.mem_map.1 h
  have hi2 : i < (b - a).toNat := List.mem_range.1 hi
  have hv2 : a + (i : Int) = v := by exact_mod_cast hv
  omega

/-- Shape of a member of `colStarts`. -/
lemma mem_colStarts {xs xe wix : Int} (h : wix ∈ colStarts xs xe) :
    ∃ k : Nat, wix = xs + 8 * (k : Int) ∧
      k < ((xe + 1 - xs) + 7).toNat / 8 := by
  unfold colStarts at h
  obtain ⟨k, hk, hv⟩ := List.mem_map.1 h
  have hk2 : k < ((xe + 1 - xs) + 7).toNat / 8 := List.mem_range.1 hk
  have hv2 : xs + 8 * (k : Int) = wix := by exact_mod_cast hv
  exact ⟨k, hv2.symm, hk2⟩

/-- Claim C6: a successful `_build` packs the aligned window row-major in
increasing `y`, 8 consecutive pixels per byte MSB-first (the leftmost pixel
gets weight 128), so that an all-white window yields only `0xFF` bytes and
an all-black window only `0x00` bytes. -/
theorem packing_msb_first (px : Int → Int → Nat) (d : Dirty)
    (buf : List Nat) (a : Dirty) (h : build px d = some (buf, a)) :
    buf = bufSpec px a ∧
    (∀ x y : Int, packByte px x y =
      128 * (px x y % 2) + 64 * (px (x + 1) y % 2) + 32 * (px (x + 2) y % 2) +
      16 * (px (x + 3) y % 2) + 8 * (px (x + 4) y % 2) +
      4 * (px (x + 5) y % 2) + 2 * (px (x + 6) y % 2) + px (x + 7) y % 2) ∧
    ((∀ x y : Int, a.xs ≤ x → x ≤ a.xe → a.ys ≤ y → y ≤ a.ye →
        px x y % 2 = 1) → ∀ b ∈ buf, b = 255) ∧
    ((∀ x y : Int, a.xs ≤ x → x ≤ a.xe → a.ys ≤ y → y ≤ a.ye →
        px x y % 2 = 0) → ∀ b ∈ buf, b = 0) := by
  obtain ⟨hbuf, hxs, hys, hxe, hye, hcond⟩ := build_some_spec h
  have halign : a.xs % 8 = 0 ∧ (a.xe + 1) % 8 = 0 := by
    simp only [alignDown8, alignUp8] at hxs hxe
    unfold WIDTH at hxe
    constructor
    · omega
    · split at hxe <;> omega
  have hshape : buf = bufSpec px a := by
    rw [hbuf, buildBuf_eq_flatMap]; rfl
  have hmem : ∀ b ∈ buf, ∃ hix k : _,
      a.ys ≤ hix ∧ hix ≤ a.ye ∧ (k : Nat) < ((a.xe + 1 - a.xs) + 7).toNat / 8 ∧
      b = packByte px (a.xs + 8 * (k : Int)) hix := by
    intro b hb
    rw [hshape] at hb
    unfold bufSpec at hb
    obtain ⟨hix, hrow, hbm⟩ := List.mem_flatMap.1 hb
    obtain ⟨wix, hcol, hpk⟩ := List.mem_map.1 hbm
    obtain ⟨hy1, hy2⟩ := mem_intRange hrow
    obtain ⟨k, hkw, hk⟩ := mem_colStarts hcol
    exact ⟨hix, k, hy1, by omega, hk, by rw [← hpk, hkw]⟩
  refine ⟨hshape, fun x y => packByte_msb px x y, ?_, ?_⟩
  · intro hwhite b hb
    obtain ⟨hix, k, hy1, hy2, hk, rfl⟩ := hmem b hb
    apply packByte_all_one
    intro i h0 h7
    exact hwhite _ _ (by omega) (by omega) hy1 hy2
  · intro hblack b hb
    obtain ⟨hix, k, hy1, hy2, hk, rfl⟩ := hmem b hb
    apply packByte_all_zero
    intro i h0 h7
    exact hblack _ _ (by omega) (by omega) hy1 hy2

/-- Witness for C6: the dirty box `[0, 0, 1, 1]` on an all-white canvas
packs to the two-row, one-column buffer `[0xFF, 0xFF]`. -/
theorem packing_msb_first_witness :
    ([255, 255] : List Nat) = bufSpec (fun _ _ => 255) ⟨0, 0, 7, 1⟩ :=
  (packing_msb_first (fun _ _ => 255) ⟨0, 0, 1, 1⟩ [255, 255] ⟨0, 0, 7, 1⟩
    (by decide)).1

/-! ### Claim theorems: rotary encoder (C1) -/

/-- Counterexample to C1 as stated: fed as raw pin samples from `Start`,
the sequence `00,10,11,01,00` — under either bit-order reading, pinstates
`[0,2,3,1,0]` or `[0,1,3,2,0]`, which also cover the claim's reversed
sequence `00,01,11,10,00` — reports no event at all, and the FSM does not
end in `Start`. -/
theorem rotary_claim_sequences_emit_nothing :
    rotaryRun [0, 2, 3, 1, 0] = (3, []) ∧
    rotaryRun [0, 1, 3, 2, 0] = (6, []) ∧
    (3 : Nat) ≠ 0 ∧ (6 : Nat) ≠ 0 := by
  decide

/-- Claim C1 (amended): the pull-ups invert the encoder levels, so the
emitting detent sample is `11`.  Feeding the claimed forward sequence with
both bits inverted, `11,01,00,10,11` (pinstates `[3,1,0,2,3]`), from
`Start` reports exactly one event — code 2 (`ANTICLOCKWISE`, because
`rotary_event` maps the table's `DIR_CW` flag to `ANTICLOCKWISE`) — and
returns the masked FSM state to `Start`; the inverted reverse sequence
`11,10,00,01,11` (pinstates `[3,2,0,1,3]`) reports exactly one event of
code 1 (`CLOCKWISE`, from `DIR_CCW`) and also returns the masked state to
`Start`. -/
theorem rotary_inverted_sequences_one_step :
    rotaryRun [3, 1, 0, 2, 3] = (16, [2]) ∧ 16 &&& 15 = 0 ∧
    rotaryRun [3, 2, 0, 1, 3] = (32, [1]) ∧ 32 &&& 15 = 0 := by
  decide

/-! ### Claim theorems: engine loop queue handling (C9) -/

/-- Counterexample to C9 as stated: waking on the queue `[CLOCKWISE,
BUTTONDOWN]` from browsing mode ends the iteration with the queue cleared,
with exactly the state and outputs of the queue `[CLOCKWISE]` alone — the
pending `BUTTONDOWN` is discarded unprocessed (processing it alone would
have toggled editing mode on and repainted). -/
theorem engine_wake_drops_pending_event :
    loopBody ⟨[1, 3], false, false, 2, 2, [1, 2, 3]⟩ =
      (⟨[], false, false, 2, 2, [1, 2, 3]⟩, []) ∧
    loopBody ⟨[1], false, false, 2, 2, [1, 2, 3]⟩ =
      (⟨[], false, false, 2, 2, [1, 2, 3]⟩, []) ∧
    loopBody ⟨[3], false, false, 2, 2, [1, 2, 3]⟩ =
      (⟨[], true, true, 1, 2, [1, 2, 3]⟩, [.selectRadio 1]) := by
  decide

/-- Claim C9 (amended): every wake consumes exactly one head event and, for
every recognised code except the edit-off button path, then clears the
queue, dropping all other pending entries unprocessed: a rotation head
(codes 1/2) coalesces only the same-direction rotations still queued — the
iteration's outcome is unchanged if every differing entry is deleted
beforehand — and ends with an empty queue; a button press from browsing
(code 3), MENU (22) and CANCEL (27) behave independently of the pending
entries and end with an empty queue; the edit-off button path (code 3 while
editing) and an unrecognised code `continue` past the clear, leaving
exactly the unconsumed tail queued. -/
theorem engine_wake_consumes_head_only (rest : List Nat) (e c : Bool)
    (rp cur : Nat) (rads : List Nat) (code : Nat) :
    (loopBody ⟨1 :: rest, e, c, rp, cur, rads⟩ =
       loopBody ⟨1 :: rest.filter (fun x => x == 1), e, c, rp, cur, rads⟩ ∧
     (loopBody ⟨1 :: rest, e, c, rp, cur, rads⟩).1.queue = []) ∧
    (loopBody ⟨2 :: rest, e, c, rp, cur, rads⟩ =
       loopBody ⟨2 :: rest.filter (fun x => x == 2), e, c, rp, cur, rads⟩ ∧
     (loopBody ⟨2 :: rest, e, c, rp, cur, rads⟩).1.queue = []) ∧
    (loopBody ⟨3 :: rest, false, c, rp, cur, rads⟩ =
       loopBody ⟨[3], false, c, rp, cur, rads⟩ ∧
     (loopBody ⟨3 :: rest, false, c, rp, cur, rads⟩).1.queue = []) ∧
    (loopBody ⟨3 :: rest, true, c, rp, cur, rads⟩ =
       ({ (loopBody ⟨[3], true, c, rp, cur, rads⟩).1 with queue := rest },
        (loopBody ⟨[3], true, c, rp, cur, rads⟩).2)) ∧
    (loopBody ⟨22 :: rest, e, c, rp, cur, rads⟩ =
       loopBody ⟨[22], e, c, rp, cur, rads⟩ ∧
     (loopBody ⟨22 :: rest, e, c, rp, cur, rads⟩).1.queue = []) ∧
    (loopBody ⟨27 :: rest, e, c, rp, cur, rads⟩ =
       loopBody ⟨[27], e, c, rp, cur, rads⟩ ∧
     (loopBody ⟨27 :: rest, e, c, rp, cur, rads⟩).1.queue = []) ∧
    (code ≠ 1 → code ≠ 2 → code ≠ 3 → code ≠ 22 → code ≠ 27 →
      loopBody ⟨code :: rest, e, c, rp, cur, rads⟩ =
        (⟨rest, e, c, rp, cur, rads⟩, [])) := by
  have h1 : (rest.filter (fun x => x == 1)).count 1 = rest.count 1 :=
    List.count_filter (by simp)
  have h2 : (rest.filter (fun x => x == 2)).count 2 = rest.count 2 :=
    List.count_filter (by simp)
  refine ⟨?_, ?_, ?_, ?_, ?_, ?_, ?_⟩
  · cases e <;> simp [loopBody, h1]
  · cases e <;> simp [loopBody, h2]
  · simp [loopBody]
  · by_cases hrc : rp = cur <;> simp [loopBody, hrc]
  · cases e <;> simp [loopBody]
  · cases e <;> simp [loopBody]
  · intro n1 n2 n3 n4 n5
    simp [loopBody, n1, n2, n3, n4, n5]

/-- Witness for C9: an unrecognised code 99 with a pending button press
consumes only the head and leaves the tail queued, with no output. -/
theorem engine_wake_consumes_head_only_witness :
    loopBody ⟨[99, 3], false, false, 2, 2, [1, 2, 3]⟩ =
      (⟨[3], false, false, 2, 2, [1, 2, 3]⟩, []) :=
  (engine_wake_consumes_head_only [3] false false 2 2 [1, 2, 3]
    99).2.2.2.2.2.2 (by decide) (by decide) (by decide) (by decide)
    (by decide)


/-! ### Claim theorems: drawing-primitive clamping (C8) -/

/-- Counterexample to C8 as stated: `hline(0, 0, -5)` (negative length,
orientation `False`) passes the endpoints `(127, 0)..(127, -5)` to the draw
call: descending in `y` and below the canvas — the coordinates are not
clamped and swapped into ascending in-range bounds. -/
theorem hline_negative_length_breaks_clamping :
    hlinePhys false 0 0 (-5) = some (127, 0, -5) ∧
    ¬ hlineEndpointsOk (127, 0, -5) := by
  constructor
  · decide
  · unfold hlineEndpointsOk
    decide

/-- First component of the ascending reorder. -/
lemma sortPair_fst (a b : Int) : (sortPair a b).1 = min a b := by
  unfold sortPair; split_ifs <;> simp <;> omega

/-- Second component of the ascending reorder. -/
lemma sortPair_snd (a b : Int) : (sortPair a b).2 = max a b := by
  unfold sortPair; split_ifs <;> simp <;> omega

/-- The rectangle X clamp lands in `[0, HEIGHT]`. -/
lemma clampRectX_bounds (x : Int) : 0 ≤ clampRectX x ∧ clampRectX x ≤ HEIGHT := by
  unfold clampRectX HEIGHT; split_ifs <;> omega

/-- The rectangle Y clamp lands in `[0, WIDTH]`. -/
lemma clampRectY_bounds (y : Int) : 0 ≤ clampRectY y ∧ clampRectY y ≤ WIDTH := by
  unfold clampRectY WIDTH; split_ifs <;> omega

/-- Claim C8 (amended): the primitives are total — modelled as total
functions returning the coordinates handed to the draw call — and
`rectangle` always passes ascending corners inside `[0, WIDTH] x
[0, HEIGHT]`; `hline` and `vline` pass ascending, in-bounds endpoints for
every non-negative length whenever the unclamped running coordinate is not
exactly the excluded edge value (`lx != HEIGHT` resp. `ly != WIDTH`);
negative lengths yield a descending, possibly out-of-range endpoint, drawn
without error. -/
theorem draw_primitive_clamping_amended :
    (∀ (o : Bool) (x1 y1 x2 y2 : Int), rectCornersOk (rectPhys o x1 y1 x2 y2)) ∧
    (∀ (o : Bool) (lx ly len : Int) (r : Int × Int × Int), 0 ≤ len →
      lx ≠ HEIGHT → hlinePhys o lx ly len = some r → hlineEndpointsOk r) ∧
    (∀ (o : Bool) (lx ly len : Int) (r : Int × Int × Int), 0 ≤ len →
      ly ≠ WIDTH → vlinePhys o lx ly len = some r → vlineEndpointsOk r) := by
  refine ⟨?_, ?_, ?_⟩
  · intro o x1 y1 x2 y2
    have bx1 := clampRectX_bounds x1
    have bx2 := clampRectX_bounds x2
    have by1 := clampRectY_bounds y1
    have by2 := clampRectY_bounds y2
    unfold rectCornersOk rectPhys
    cases o <;>
      simp only [Bool.false_eq_true, if_false, if_true, reduceIte,
                 sortPair_fst, sortPair_snd] <;>
      unfold WIDTH HEIGHT at * <;> omega
  · intro o lx ly len r hlen hlx h
    unfold hlinePhys at h
    unfold hlineEndpointsOk WIDTH HEIGHT at *
    cases o <;> split_ifs at h <;>
      simp only [Option.some.injEq] at h <;> subst h <;>
      simp only [] <;> omega
  · intro o lx ly len r hlen hly h
    unfold vlinePhys at h
    unfold vlineEndpointsOk WIDTH HEIGHT at *
    cases o <;> split_ifs at h <;>
      simp only [Option.some.injEq] at h <;> subst h <;>
      simp only [] <;> omega

/-! ### Claim theorems: dirty-region invariant (C3) -/

/-- Counterexample to C3 as stated: after `clear()` the dirty region is
`(0, 0) + frame.size = [0, 0, 128, 296]`, which is not the empty sentinel
shape and whose `xe = WIDTH` exceeds the claimed inclusive bound
`WIDTH - 1` (same for `ye` vs `HEIGHT - 1`). -/
theorem clear_dirty_exceeds_claimed_bounds :
    runOps false [Op.clear] dirtySentinel = ⟨0, 0, 128, 296⟩ ∧
    ¬ dirtyInverted (⟨0, 0, 128, 296⟩ : Dirty) ∧
    ¬ ((⟨0, 0, 128, 296⟩ : Dirty).xe ≤ WIDTH - 1) := by
  refine ⟨by decide, ?_, by decide⟩
  unfold dirtyInverted
  decide

/-- Unioning a box whose left/top edges are non-negative and whose
right/bottom edges do not exceed the canvas keeps the dirty components in
range. -/
lemma unionDirty_inRange_of (d b : Dirty) (hd : dirtyInRange d)
    (h1 : 0 ≤ b.xs) (h2 : 0 ≤ b.ys) (h3 : b.xe ≤ WIDTH) (h4 : b.ye ≤ HEIGHT) :
    dirtyInRange (unionDirty d b) := by
  unfold dirtyInRange unionDirty WIDTH HEIGHT at *
  dsimp only at *
  omega

/-- The rectangle's physical corner box lies fully inside the canvas
ranges. -/
lemma rectPhys_inRange (o : Bool) (x1 y1 x2 y2 : Int) :
    dirtyInRange (rectPhys o x1 y1 x2 y2) := by
  have bx1 := clampRectX_bounds x1
  have bx2 := clampRectX_bounds x2
  have by1 := clampRectY_bounds y1
  have by2 := clampRectY_bounds y2
  unfold dirtyInRange rectPhys
  cases o <;>
    simp only [Bool.false_eq_true, if_false, if_true, reduceIte,
               sortPair_fst, sortPair_snd] <;>
    unfold WIDTH HEIGHT at * <;> omega

/-- Bounds of the endpoints `hline` hands to the draw call. -/
lemma hlinePhys_bounds {o : Bool} {lx ly len : Int} {r : Int × Int × Int}
    (h : hlinePhys o lx ly len = some r) :
    0 ≤ r.1 ∧ r.1 ≤ WIDTH - 1 ∧ 0 ≤ r.2.1 ∧ r.2.2 ≤ HEIGHT - 1 := by
  unfold hlinePhys at h
  unfold WIDTH HEIGHT at *
  cases o <;> split_ifs at h <;>
    simp only [Option.some.injEq] at h <;> subst h <;>
    simp only [] <;> omega

/-- Bounds of the endpoints `vline` hands to the draw call. -/
lemma vlinePhys_bounds {o : Bool} {lx ly len : Int} {r : Int × Int × Int}
    (h : vlinePhys o lx ly len = some r) :
    0 ≤ r.1 ∧ 0 ≤ r.2.1 ∧ r.2.1 ≤ HEIGHT - 1 ∧ r.2.2 ≤ WIDTH - 1 := by
  unfold vlinePhys at h
  unfold WIDTH HEIGHT at *
  cases o <;> split_ifs at h <;>
    simp only [Option.some.injEq] at h <;> subst h <;>
    simp only [] <;> omega

/-- The dirty region a refresh leaves behind is the (possibly
`force_full`-overwritten) input or the sentinel. -/
lemma refresh_dirty_cases (full pm : Bool) (px : Int → Int → Nat)
    (d : Dirty) :
    (refreshTrace full pm px d).1 =
      (if full then (⟨0, 0, WIDTH, HEIGHT⟩ : Dirty) else d) ∨
    (refreshTrace full pm px d).1 = dirtySentinel := by
  unfold refreshTrace
  cases h : build px (if full then (⟨0, 0, WIDTH, HEIGHT⟩ : Dirty) else d) with
  | none => left; simp [h]
  | some p =>
    obtain ⟨buf, area⟩ := p
    by_cases hb : buf = []
    · left; simp [h, hb]
    · right; simp [h, hb]

/-- One operation with stroke width 1 keeps the dirty components in
range. -/
lemma applyOp_inRange (o : Bool) (op : Op) (d : Dirty)
    (hw : strokeWidth1 op) (hd : dirtyInRange d) :
    dirtyInRange (applyOp o op d) := by
  cases op with
  | clear =>
    show dirtyInRange ⟨0, 0, WIDTH, HEIGHT⟩
    unfold dirtyInRange WIDTH HEIGHT
    dsimp only
    omega
  | rect x1 y1 x2 y2 =>
    have hb := rectPhys_inRange o x1 y1 x2 y2
    unfold dirtyInRange at hb
    exact unionDirty_inRange_of d _ hd hb.1 hb.2.2.1 hb.2.2.2.2.2.1
      hb.2.2.2.2.2.2.2
  | hline lx ly len wid =>
    have hw1 : wid = 1 := hw
    subst hw1
    simp only [applyOp]
    cases h : hlinePhys o lx ly len with
    | none => simp only [h]; exact hd
    | some r =>
      obtain ⟨xs, ys, ye⟩ := r
      have hb := hlinePhys_bounds h
      simp only [h]
      apply unionDirty_inRange_of d _ hd <;>
        unfold hlineBox WIDTH HEIGHT at * <;> (try dsimp only at *) <;> omega
  | vline lx ly len wid =>
    simp only [applyOp]
    cases h : vlinePhys o lx ly len with
    | none => simp only [h]; exact hd
    | some r =>
      obtain ⟨xs, ys, xe⟩ := r
      have hb := vlinePhys_bounds h
      simp only [h]
      apply unionDirty_inRange_of d _ hd <;>
        unfold vlineBox WIDTH HEIGHT at * <;> (try dsimp only at *) <;> omega
  | text x y fw fh =>
    show dirtyInRange (textDirty x y fw fh d)
    unfold textDirty
    unfold dirtyInRange WIDTH HEIGHT at *
    dsimp only at *
    omega
  | refresh full =>
    show dirtyInRange ((refreshTrace full false (fun _ _ => 255) d).1)
    rcases refresh_dirty_cases full false (fun _ _ => 255) d with h | h <;>
      rw [h]
    · cases full
      · simpa using hd
      · simp only [if_true, reduceIte]
        unfold dirtyInRange WIDTH HEIGHT
        dsimp only
        omega
    · unfold dirtySentinel dirtyInRange WIDTH HEIGHT
      dsimp only
      omega

/-- Running width-1 operations keeps the dirty components in range. -/
lemma runOps_inRange (o : Bool) (ops : List Op) (d : Dirty)
    (hw : ∀ op ∈ ops, strokeWidth1 op) (hd : dirtyInRange d) :
    dirtyInRange (runOps o ops d) := by
  induction ops generalizing d with
  | nil => simpa [runOps] using hd
  | cons op rest ih =>
    have h1 : runOps o (op :: rest) d = runOps o rest (applyOp o op d) := by
      simp [runOps]
    rw [h1]
    exact ih (applyOp o op d) (fun p hp => hw p (List.mem_cons_of_mem op hp))
      (applyOp_inRange o op d (hw op (List.mem_cons_self op rest)) hd)

/-- Claim C3 (amended): after construction and after any sequence of public
drawing or refresh operations whose strokes have the default width 1, the
dirty region is either empty — an inverted box, as after construction and
after every transmitting refresh — or an inclusive box contained in
`[0, WIDTH] x [0, HEIGHT]`: the code stores exclusive-style right/bottom
edges (`clear` stores `xe = WIDTH`, `ye = HEIGHT`), so the claimed
`WIDTH - 1` / `HEIGHT - 1` bounds must be widened to `WIDTH` / `HEIGHT`. -/
theorem dirty_invariant_amended (o : Bool) (ops : List Op)
    (hw : ∀ op ∈ ops, strokeWidth1 op) :
    dirtyInverted (runOps o ops dirtySentinel) ∨
      (0 ≤ (runOps o ops dirtySentinel).xs ∧
       (runOps o ops dirtySentinel).xs ≤ (runOps o ops dirtySentinel).xe ∧
       (runOps o ops dirtySentinel).xe ≤ WIDTH ∧
       0 ≤ (runOps o ops dirtySentinel).ys ∧
       (runOps o ops dirtySentinel).ys ≤ (runOps o ops dirtySentinel).ye ∧
       (runOps o ops dirtySentinel).ye ≤ HEIGHT) := by
  have h := runOps_inRange o ops dirtySentinel hw (by
    unfold dirtyInRange dirtySentinel WIDTH HEIGHT
    dsimp only
    omega)
  unfold dirtyInRange at h
  unfold dirtyInverted
  omega

/-- Witness for C3 at the sequence `clear; hline(0, 0, 5); refresh`. -/
theorem dirty_invariant_amended_witness :
    dirtyInverted
      (runOps false [Op.clear, Op.hline 0 0 5 1, Op.refresh false]
        dirtySentinel) ∨
      (0 ≤ (runOps false [Op.clear, Op.hline 0 0 5 1, Op.refresh false]
          dirtySentinel).xs ∧
       (runOps false [Op.clear, Op.hline 0 0 5 1, Op.refresh false]
          dirtySentinel).xs ≤
         (runOps false [Op.clear, Op.hline 0 0 5 1, Op.refresh false]
            dirtySentinel).xe ∧
       (runOps false [Op.clear, Op.hline 0 0 5 1, Op.refresh false]
          dirtySentinel).xe ≤ WIDTH ∧
       0 ≤ (runOps false [Op.clear, Op.hline 0 0 5 1, Op.refresh false]
          dirtySentinel).ys ∧
       (runOps false [Op.clear, Op.hline 0 0 5 1, Op.refresh false]
          dirtySentinel).ys ≤
         (runOps false [Op.clear, Op.hline 0 0 5 1, Op.refresh false]
            dirtySentinel).ye ∧
       (runOps false [Op.clear, Op.hline 0 0 5 1, Op.refresh false]
          dirtySentinel).ye ≤ HEIGHT) :=
  dirty_invariant_amended false [Op.clear, Op.hline 0 0 5 1, Op.refresh false]
    (by
      intro op hop
      fin_cases hop <;> trivial)

/-! ### Claim theorems: dirty region as union of draw boxes (C7) -/

/-- Counterexample to C7 as stated: a single negative-length `hline` leaves
a dirty region different from the draw's own contribution box, because the
sentinel's zero edges clamp the union (`max(0, -5) = 0`): the dirty region
is not the union of the draws' boxes. -/
theorem hline_negative_length_box_mismatch :
    runOps false [Op.hline 0 0 (-5) 1] dirtySentinel ≠
      unionList ([Op.hline 0 0 (-5) 1].filterMap (opBox false)) := by
  decide

/-- The constructor sentinel has all components in range. -/
lemma dirtySentinel_inRange : dirtyInRange dirtySentinel := by
  unfold dirtyInRange dirtySentinel WIDTH HEIGHT
  dsimp only
  omega

/-- Union of two in-range boxes is in range. -/
lemma unionDirty_inRange_full (d b : Dirty) (hd : dirtyInRange d)
    (hb : dirtyInRange b) : dirtyInRange (unionDirty d b) :=
  unionDirty_inRange_of d b hd hb.1 hb.2.2.1 hb.2.2.2.2.2.1
    hb.2.2.2.2.2.2.2

/-- A draw whose contribution box is in range acts on an in-range dirty
region exactly as the union with that box. -/
lemma applyOp_eq_union (o : Bool) (op : Op) (d : Dirty) (b : Dirty)
    (hop : isDraw op) (hb : opBox o op = some b) (hd : dirtyInRange d)
    (hbr : dirtyInRange b) :
    applyOp o op d = unionDirty d b := by
  cases op with
  | clear =>
    simp only [opBox, Option.some.injEq] at hb
    subst hb
    show (⟨0, 0, WIDTH, HEIGHT⟩ : Dirty) = _
    unfold unionDirty dirtyInRange WIDTH HEIGHT at *
    dsimp only at *
    simp only [Dirty.mk.injEq]
    omega
  | rect x1 y1 x2 y2 =>
    simp only [opBox, Option.some.injEq] at hb
    subst hb
    rfl
  | hline lx ly len wid =>
    simp only [opBox] at hb
    simp only [applyOp]
    cases h : hlinePhys o lx ly len with
    | none => rw [h] at hb; exact absurd hb (by simp)
    | some r =>
      rw [h] at hb
      simp only [Option.map_some', Option.some.injEq] at hb
      subst hb
      obtain ⟨xs, ys, ye⟩ := r
      rfl
  | vline lx ly len wid =>
    simp only [opBox] at hb
    simp only [applyOp]
    cases h : vlinePhys o lx ly len with
    | none => rw [h] at hb; exact absurd hb (by simp)
    | some r =>
      rw [h] at hb
      simp only [Option.map_some', Option.some.injEq] at hb
      subst hb
      obtain ⟨xs, ys, xe⟩ := r
      rfl
  | text x y fw fh =>
    simp only [opBox, Option.some.injEq] at hb
    subst hb
    show textDirty x y fw fh d = _
    unfold textDirty unionDirty dirtyInRange WIDTH HEIGHT at *
    dsimp only at *
    simp only [Dirty.mk.injEq]
    omega
  | refresh full =>
    exact absurd hop (by simp [isDraw])

/-- Running draws with in-range boxes folds the union over the boxes. -/
lemma runOps_eq_foldl_union (o : Bool) (ops : List Op) (d : Dirty)
    (hdraw : ∀ op ∈ ops, isDraw op)
    (hboxes : ∀ b ∈ ops.filterMap (opBox o), dirtyInRange b)
    (hd : dirtyInRange d) :
    runOps o ops d = (ops.filterMap (opBox o)).foldl unionDirty d := by
  induction ops generalizing d with
  | nil => rfl
  | cons op rest ih =>
    have hstep : runOps o (op :: rest) d = runOps o rest (applyOp o op d) := by
      simp [runOps]
    cases hb : opBox o op with
    | none =>
      have hskip : applyOp o op d = d := by
        cases op with
        | clear => exact absurd hb (by simp [opBox])
        | rect x1 y1 x2 y2 => exact absurd hb (by simp [opBox])
        | text x y fw fh => exact absurd hb (by simp [opBox])
        | refresh full =>
          exact absurd (hdraw _ (List.mem_cons_self _ _)) (by simp [isDraw])
        | hline lx ly len wid =>
          simp only [opBox, Option.map_eq_none] at hb
          simp only [applyOp]
          cases h2 : hlinePhys o lx ly len with
          | none => rfl
          | some r => rw [h2] at hb; exact absurd hb (by simp)
        | vline lx ly len wid =>
          simp only [opBox, Option.map_eq_none] at hb
          simp only [applyOp]
          cases h2 : vlinePhys o lx ly len with
          | none => rfl
          | some r => rw [h2] at hb; exact absurd hb (by simp)
      have hfm : (op :: rest).filterMap (opBox o) =
          rest.filterMap (opBox o) := by
        simp [List.filterMap_cons, hb]
      rw [hstep, hskip, hfm]
      exact ih d (fun p hp => hdraw p (List.mem_cons_of_mem op hp))
        (by rw [← hfm]; exact hboxes) hd
    | some b =>
      have hfm : (op :: rest).filterMap (opBox o) =
          b :: rest.filterMap (opBox o) := by
        simp [List.filterMap_cons, hb]
      have hbr : dirtyInRange b := hboxes b (by rw [hfm]; simp)
      have happ := applyOp_eq_union o op d b
        (hdraw op (List.mem_cons_self _ _)) hb hd hbr
      rw [hstep, happ, hfm, List.foldl_cons]
      exact ih (unionDirty d b)
        (fun p hp => hdraw p (List.mem_cons_of_mem op hp))
        (fun p hp => hboxes p (by rw [hfm]; simp [hp]))
        (unionDirty_inRange_full d b hd hbr)

/-- Claim C7 (amended): for a non-empty sequence of draws since the last
flush whose contribution boxes all lie inside the canvas component ranges,
the resulting dirty region equals the componentwise union of the draws'
boxes (strokes extended by `width // 2` on one side and `(width + 1) // 2`
on the other of the drawn line); out-of-range boxes (negative lengths,
wide strokes at the canvas edge) break the equality because the running
union is clamped against the sentinel's zero edges. -/
theorem dirty_union_of_boxes_amended (o : Bool) (ops : List Op)
    (hdraw : ∀ op ∈ ops, isDraw op)
    (hboxes : ∀ b ∈ ops.filterMap (opBox o), dirtyInRange b)
    (hne : ops.filterMap (opBox o) ≠ []) :
    runOps o ops dirtySentinel = unionList (ops.filterMap (opBox o)) := by
  have h := runOps_eq_foldl_union o ops dirtySentinel hdraw hboxes
    dirtySentinel_inRange
  rw [h]
  cases hfm : ops.filterMap (opBox o) with
  | nil => exact absurd hfm hne
  | cons b bs =>
    have hbr : dirtyInRange b := hboxes b (by rw [hfm]; simp)
    unfold unionList
    rw [List.foldl_cons]
    have habs : unionDirty dirtySentinel b = b := by
      obtain ⟨bxs, bys, bxe, bye⟩ := b
      unfold unionDirty dirtySentinel dirtyInRange WIDTH HEIGHT at *
      dsimp only at *
      simp only [Dirty.mk.injEq]
      omega
    rw [habs]

/-- Witness for C7 at the sequence `clear; rectangle(1, 2, 3, 4)`. -/
theorem dirty_union_of_boxes_amended_witness :
    runOps false [Op.clear, Op.rect 1 2 3 4] dirtySentinel =
      unionList ([Op.clear, Op.rect 1 2 3 4].filterMap (opBox false)) :=
  dirty_union_of_boxes_amended false [Op.clear, Op.rect 1 2 3 4]
    (by decide) (by decide) (by decide)

/-- Witness for C8: `hline(5, 10, 10)` hands ascending in-bounds endpoints
to the draw call. -/
theorem draw_primitive_clamping_witness :
    hlineEndpointsOk (117, 5, 15) :=
  draw_primitive_clamping_amended.2.1 false 5 10 10 (117, 5, 15)
    (by decide) (by decide) (by decide)
